import Mathlib

/-!
Verification of runorbit.py: a single test particle integrated in a fixed
3-D logarithmic potential with a kick-drift-kick leapfrog scheme, with an
energy-conservation guard that aborts the stepping loop early.

The embedding models the numeric state with real numbers. Positions and
velocities are 3-vectors of reals; the recorded trajectory is the list of
samples the driver appends (source: the self.orbit list, which stores
np.append(pos, tnow), i.e. the position plus the time, per sample).
-/

namespace RunOrbit

/-- Three-vector of reals, as used for both positions and velocities. -/
@[ext] structure Vec3 where
  x : ℝ
  y : ℝ
  z : ℝ

/-- Componentwise vector addition. -/
def vadd (a b : Vec3) : Vec3 := ⟨a.x + b.x, a.y + b.y, a.z + b.z⟩

/-- Scalar multiple of a vector. -/
def smul (s : ℝ) (a : Vec3) : Vec3 := ⟨s * a.x, s * a.y, s * a.z⟩

/-- Componentwise negation of a vector. -/
def vneg (a : Vec3) : Vec3 := ⟨-a.x, -a.y, -a.z⟩

/-- Shape parameters of the logarithmic potential: core radius Rc and the
two axis ratios b (y:x) and c (z:x), from OrbitIntegrator.__init__. -/
structure Params where
  Rc : ℝ
  b : ℝ
  c : ℝ

/-- The squared-distance-like quantity of the logarithmic model, from
_potential and _acceleration in runorbit.py:
np.sum(np.square([Rc, x, y/b, z/c])). -/
noncomputable def mu2 (P : Params) (pos : Vec3) : ℝ :=
  P.Rc ^ 2 + pos.x ^ 2 + (pos.y / P.b) ^ 2 + (pos.z / P.c) ^ 2

/-- POTENTIAL: gravitational potential of the logarithmic model
(runorbit.py, _potential): 0.5 * np.log(mu2). -/
noncomputable def potential (P : Params) (pos : Vec3) : ℝ :=
  0.5 * Real.log (mu2 P pos)

/-- ACCELERATION: gravitational acceleration of the logarithmic model
(runorbit.py, _acceleration): -np.array([x, y/b**2, z/c**2]) / mu2. -/
noncomputable def acceleration (P : Params) (pos : Vec3) : Vec3 :=
  ⟨-pos.x / mu2 P pos, -(pos.y / P.b ^ 2) / mu2 P pos, -(pos.z / P.c ^ 2) / mu2 P pos⟩

/-- ENERGY: binding energy from phase-space coordinates
(runorbit.py, _energy): 0.5*np.sum(np.square(vel)) + potential(pos). -/
noncomputable def energy (P : Params) (pos vel : Vec3) : ℝ :=
  0.5 * (vel.x ^ 2 + vel.y ^ 2 + vel.z ^ 2) + potential P pos

/-- LEAPSTEP: advance coordinates by one kick-drift-kick leapfrog step
(runorbit.py, _leapstep). -/
noncomputable def leapstep (P : Params) (dtime : ℝ) (pos vel : Vec3) : Vec3 × Vec3 :=
  let acc := acceleration P pos
  let vel1 := vadd vel (smul (0.5 * dtime) acc)
  let pos1 := vadd pos (smul dtime vel1)
  let acc1 := acceleration P pos1
  let vel2 := vadd vel1 (smul (0.5 * dtime) acc1)
  (pos1, vel2)

/-- One trajectory sample as recorded by the driver: the self.orbit list
stores np.append(pos, tnow), that is the three position coordinates plus
the time of the sample (runorbit.py lines 27 and 38). -/
structure Sample where
  pos : Vec3
  t : ℝ

/-- Data printed by the energy-conservation-violation report
(runorbit.py lines 35-36): initial energy, current time, current energy,
and the deviation Einit - Enow. -/
structure Report where
  Einit : ℝ
  tnow : ℝ
  Enow : ℝ
  deltaE : ℝ

open Classical in
/-- Stepping loop of OrbitIntegrator.__init__ (runorbit.py lines 30-38),
started at step index n with rem steps left to take: each iteration takes
a leapfrog step, computes the current time and energy, and either aborts
with a violation report (appending nothing) when the energy deviates from
Einit by more than detol, or appends the new position with the current
time and continues. Returns the appended samples and the report, if any. -/
noncomputable def orbitLoop (P : Params) (dtime detol Einit : ℝ) :
    Vec3 → Vec3 → ℕ → ℕ → List Sample × Option Report
  | _, _, _, 0 => ([], none)
  | pos, vel, n, rem + 1 =>
    let pv := leapstep P dtime pos vel
    let tnow := dtime * (n : ℝ)
    let Enow := energy P pv.1 pv.2
    if |Einit - Enow| > detol then
      ([], some ⟨Einit, tnow, Enow, Einit - Enow⟩)
    else
      let rest := orbitLoop P dtime detol Einit pv.1 pv.2 (n + 1) rem
      (⟨pv.1, tnow⟩ :: rest.1, rest.2)

/-- Whole integration run of OrbitIntegrator.__init__: compute the initial
energy, record the initial sample at time 0, then run the stepping loop
for nstep steps. Returns the recorded trajectory and the violation report,
if the loop aborted. -/
noncomputable def runOrbit (P : Params) (dtime detol : ℝ) (pos vel : Vec3) (nstep : ℕ) :
    List Sample × Option Report :=
  let Einit := energy P pos vel
  let res := orbitLoop P dtime detol Einit pos vel 1 nstep
  (⟨pos, 0⟩ :: res.1, res.2)

/-- Phase-space state after n leapfrog steps from the initial state. -/
noncomputable def stateAt (P : Params) (dtime : ℝ) (pos vel : Vec3) : ℕ → Vec3 × Vec3
  | 0 => (pos, vel)
  | n + 1 =>
    let s := stateAt P dtime pos vel n
    leapstep P dtime s.1 s.2

/-- The energy check of step n fails: the energy after n leapfrog steps
deviates from the initial energy by more than detol. -/
def violates (P : Params) (dtime detol : ℝ) (pos vel : Vec3) (n : ℕ) : Prop :=
  |energy P pos vel -
      energy P (stateAt P dtime pos vel n).1 (stateAt P dtime pos vel n).2| > detol

/-- The sample the driver would record for step i: the position after i
steps, tagged with time i*dtime. -/
noncomputable def sampleAt (P : Params) (dtime : ℝ) (pos vel : Vec3) (i : ℕ) : Sample :=
  ⟨(stateAt P dtime pos vel i).1, dtime * (i : ℝ)⟩

/-- Value of kwargs.pop with a default: the stored value when the key is
present, the default otherwise (OrbitIntegrator.__init__ reads every
configuration option this way). -/
def popDefault (kwargs : List (String × ℝ)) (key : String) (dflt : ℝ) : ℝ :=
  match kwargs.lookup key with
  | some v => v
  | none => dflt

/-- Destination name under which argparse stores the value of the
core-radius flag -R (runorbit.py line 95); vars(args) passes it to
OrbitIntegrator under this name. -/
def cliCoreRadiusKey : String := "R"

/-- Core radius picked up by OrbitIntegrator.__init__ from its keyword
dictionary: kwargs.pop of the literal key Rc with default 0.2
(runorbit.py line 19). -/
def initRc (kwargs : List (String × ℝ)) : ℝ :=
  popDefault kwargs ("Rc") 0.2

/-- Coordinate axis of a plotted quantity. -/
inductive Axis
  | X
  | Y
  | Z
deriving DecidableEq

/-- One plt.plot call issued by OrbitIntegrator.plot: the pair of
coordinates drawn, horizontal then vertical. -/
structure DrawCall where
  hAxis : Axis
  vAxis : Axis
deriving DecidableEq

/-- The sequence of plt.plot calls issued by OrbitIntegrator.plot(plane)
(runorbit.py lines 46-48): the dict literal evaluates all three of its
values, in order, at construction time, and each value is itself a
plt.plot call; .get(plane) then merely selects one of the already
computed results. Hence the drawn projections do not depend on plane. -/
def plotCalls (plane : String) : List DrawCall :=
  [⟨Axis.X, Axis.Y⟩, ⟨Axis.Y, Axis.Z⟩, ⟨Axis.X, Axis.Z⟩]

/-- Axis labels set by OrbitIntegrator.plot(plane) (runorbit.py lines
49-50): xlabel is the first character of plane, ylabel the second. -/
def plotAxisLabels (plane : String) : Option (Char × Char) :=
  match plane.toList with
  | a :: b :: _ => some (a, b)
  | _ => none

end RunOrbit

namespace RunOrbit

/-- C1: one leapfrog step returns exactly the kick-drift-kick result:
a half-kick of the velocity by the starting acceleration, a full drift of
the position by the half-kicked velocity (not the original velocity), and
a closing half-kick by the acceleration at the new position. -/
theorem leapstep_is_kick_drift_kick (P : Params) (dtime : ℝ) (pos vel : Vec3)
    (hdt : 0 < dtime) :
    leapstep P dtime pos vel =
      (vadd pos (smul dtime (vadd vel (smul (0.5 * dtime) (acceleration P pos)))),
       vadd (vadd vel (smul (0.5 * dtime) (acceleration P pos)))
         (smul (0.5 * dtime)
           (acceleration P
             (vadd pos (smul dtime (vadd vel (smul (0.5 * dtime) (acceleration P pos)))))))) :=
  rfl

/-- Witness for C1 at a concrete configuration and positive step size. -/
theorem leapstep_is_kick_drift_kick_witness :
    (0 : ℝ) < 1 ∧
    leapstep ⟨0.2, 0.9, 0.8⟩ 1 ⟨1, 0, 0⟩ ⟨0, 0.4, 0⟩ =
      (vadd ⟨1, 0, 0⟩ (smul 1 (vadd ⟨0, 0.4, 0⟩
          (smul (0.5 * 1) (acceleration ⟨0.2, 0.9, 0.8⟩ ⟨1, 0, 0⟩)))),
       vadd (vadd ⟨0, 0.4, 0⟩ (smul (0.5 * 1) (acceleration ⟨0.2, 0.9, 0.8⟩ ⟨1, 0, 0⟩)))
         (smul (0.5 * 1)
           (acceleration ⟨0.2, 0.9, 0.8⟩
             (vadd ⟨1, 0, 0⟩ (smul 1 (vadd ⟨0, 0.4, 0⟩
               (smul (0.5 * 1) (acceleration ⟨0.2, 0.9, 0.8⟩ ⟨1, 0, 0⟩)))))))) :=
  ⟨by norm_num, leapstep_is_kick_drift_kick ⟨0.2, 0.9, 0.8⟩ 1 ⟨1, 0, 0⟩ ⟨0, 0.4, 0⟩ (by norm_num)⟩

/-- C2: with mu2 = Rc^2 + x^2 + (y/b)^2 + (z/c)^2, the potential returns
0.5*ln(mu2) and the acceleration returns the componentwise vector
-(x, y/b^2, z/c^2)/mu2; both are pure functions of position and params. -/
theorem potential_acceleration_formulas (P : Params) (pos : Vec3)
    (hb : P.b ≠ 0) (hc : P.c ≠ 0) :
    mu2 P pos = P.Rc ^ 2 + pos.x ^ 2 + (pos.y / P.b) ^ 2 + (pos.z / P.c) ^ 2 ∧
    potential P pos = 0.5 * Real.log (mu2 P pos) ∧
    acceleration P pos =
      ⟨-(pos.x / mu2 P pos), -(pos.y / P.b ^ 2 / mu2 P pos), -(pos.z / P.c ^ 2 / mu2 P pos)⟩ := by
  refine ⟨rfl, rfl, ?_⟩
  unfold acceleration
  ext <;> ring

/-- Witness for C2 at the default shape parameters. -/
theorem potential_acceleration_formulas_witness :
    ((0.9 : ℝ) ≠ 0 ∧ (0.8 : ℝ) ≠ 0) ∧
    (mu2 ⟨0.2, 0.9, 0.8⟩ ⟨1, 2, 3⟩ =
        (0.2 : ℝ) ^ 2 + (1 : ℝ) ^ 2 + ((2 : ℝ) / 0.9) ^ 2 + ((3 : ℝ) / 0.8) ^ 2 ∧
      potential ⟨0.2, 0.9, 0.8⟩ ⟨1, 2, 3⟩ = 0.5 * Real.log (mu2 ⟨0.2, 0.9, 0.8⟩ ⟨1, 2, 3⟩) ∧
      acceleration ⟨0.2, 0.9, 0.8⟩ ⟨1, 2, 3⟩ =
        ⟨-((1 : ℝ) / mu2 ⟨0.2, 0.9, 0.8⟩ ⟨1, 2, 3⟩),
         -((2 : ℝ) / (0.9 : ℝ) ^ 2 / mu2 ⟨0.2, 0.9, 0.8⟩ ⟨1, 2, 3⟩),
         -((3 : ℝ) / (0.8 : ℝ) ^ 2 / mu2 ⟨0.2, 0.9, 0.8⟩ ⟨1, 2, 3⟩)⟩) :=
  ⟨⟨by norm_num, by norm_num⟩,
    potential_acceleration_formulas ⟨0.2, 0.9, 0.8⟩ ⟨1, 2, 3⟩ (by norm_num) (by norm_num)⟩

/-- C10: when Rc > 0 (and the axis ratios are nonzero), mu2 is strictly
positive at every position, so the logarithm inside the potential is
genuinely defined there: exp applied to twice the potential recovers mu2,
and the evaluation has no error branch. -/
theorem mu2_pos_and_log_defined (P : Params) (pos : Vec3)
    (hR : 0 < P.Rc) (hb : P.b ≠ 0) (hc : P.c ≠ 0) :
    0 < mu2 P pos ∧ Real.exp (2 * potential P pos) = mu2 P pos := by
  have hpos : 0 < mu2 P pos := by
    have h1 : 0 < P.Rc ^ 2 := by positivity
    have h2 : (0 : ℝ) ≤ pos.x ^ 2 := sq_nonneg _
    have h3 : (0 : ℝ) ≤ (pos.y / P.b) ^ 2 := sq_nonneg _
    have h4 : (0 : ℝ) ≤ (pos.z / P.c) ^ 2 := sq_nonneg _
    unfold mu2
    linarith
  refine ⟨hpos, ?_⟩
  have h2 : 2 * potential P pos = Real.log (mu2 P pos) := by
    unfold potential; ring
  rw [h2, Real.exp_log hpos]

/-- Witness for C10 at the default shape parameters. -/
theorem mu2_pos_and_log_defined_witness :
    ((0 : ℝ) < 0.2 ∧ (0.9 : ℝ) ≠ 0 ∧ (0.8 : ℝ) ≠ 0) ∧
    (0 < mu2 ⟨0.2, 0.9, 0.8⟩ ⟨1, 0, 0⟩ ∧
      Real.exp (2 * potential ⟨0.2, 0.9, 0.8⟩ ⟨1, 0, 0⟩) = mu2 ⟨0.2, 0.9, 0.8⟩ ⟨1, 0, 0⟩) :=
  ⟨⟨by norm_num, by norm_num, by norm_num⟩,
    mu2_pos_and_log_defined ⟨0.2, 0.9, 0.8⟩ ⟨1, 0, 0⟩ (by norm_num) (by norm_num) (by norm_num)⟩

/-- C3: the energy monitor returns the sum of kinetic and potential energy,
and at the default configuration the initial energy equals
0.08 + 0.5*ln(1.04), a value lying strictly between 0.099 and 0.1. -/
theorem energy_formula_and_initial_value :
    (∀ (P : Params) (pos vel : Vec3),
        energy P pos vel = 0.5 * (vel.x ^ 2 + vel.y ^ 2 + vel.z ^ 2) + potential P pos) ∧
    energy ⟨0.2, 0.9, 0.8⟩ ⟨1, 0, 0⟩ ⟨0, 0.4, 0⟩ = 0.08 + 0.5 * Real.log 1.04 ∧
    0.099 < energy ⟨0.2, 0.9, 0.8⟩ ⟨1, 0, 0⟩ ⟨0, 0.4, 0⟩ ∧
    energy ⟨0.2, 0.9, 0.8⟩ ⟨1, 0, 0⟩ ⟨0, 0.4, 0⟩ < 0.1 := by
  have hmu : mu2 ⟨0.2, 0.9, 0.8⟩ ⟨1, 0, 0⟩ = 1.04 := by
    unfold mu2; norm_num
  have hE : energy ⟨0.2, 0.9, 0.8⟩ ⟨1, 0, 0⟩ ⟨0, 0.4, 0⟩ = 0.08 + 0.5 * Real.log 1.04 := by
    unfold energy potential
    rw [hmu]; norm_num
  have hup : Real.log 1.04 < 0.04 := by
    have h := Real.log_lt_sub_one_of_pos (x := (1.04 : ℝ)) (by norm_num) (by norm_num)
    linarith
  have hlo : (0.0384 : ℝ) < Real.log 1.04 := by
    have h := Real.log_lt_sub_one_of_pos (x := ((1.04 : ℝ))⁻¹) (by norm_num) (by norm_num)
    rw [Real.log_inv] at h
    have h2 : ((1.04 : ℝ))⁻¹ - 1 < -0.0384 := by norm_num
    linarith
  exact ⟨fun _ _ _ => rfl, hE, by rw [hE]; linarith, by rw [hE]; linarith⟩

/-- Unfolding lemma: the state before any step is the initial state. -/
theorem stateAt_zero (P : Params) (dtime : ℝ) (pos vel : Vec3) :
    stateAt P dtime pos vel 0 = (pos, vel) := rfl

/-- Unfolding lemma: the state after n+1 steps is one leapfrog step taken
from the state after n steps. -/
theorem stateAt_succ (P : Params) (dtime : ℝ) (pos vel : Vec3) (n : ℕ) :
    stateAt P dtime pos vel (n + 1)
      = leapstep P dtime (stateAt P dtime pos vel n).1 (stateAt P dtime pos vel n).2 := rfl

/-- The would-be sample of step 0 is the initial position at time 0. -/
theorem sampleAt_zero (P : Params) (dtime : ℝ) (pos vel : Vec3) :
    sampleAt P dtime pos vel 0 = ⟨pos, 0⟩ := by
  simp [sampleAt, stateAt_zero]

/-- Unfolding lemma: the loop with no steps left appends nothing. -/
theorem orbitLoop_zero (P : Params) (dtime detol Einit : ℝ) (pos vel : Vec3) (n : ℕ) :
    orbitLoop P dtime detol Einit pos vel n 0 = ([], none) := rfl

/-- Unfolding lemma: one iteration of the stepping loop. -/
theorem orbitLoop_succ (P : Params) (dtime detol Einit : ℝ) (pos vel : Vec3) (n rem : ℕ) :
    orbitLoop P dtime detol Einit pos vel n (rem + 1) =
      if |Einit - energy P (leapstep P dtime pos vel).1 (leapstep P dtime pos vel).2| > detol
      then
        ([], some ⟨Einit, dtime * (n : ℝ),
              energy P (leapstep P dtime pos vel).1 (leapstep P dtime pos vel).2,
              Einit - energy P (leapstep P dtime pos vel).1 (leapstep P dtime pos vel).2⟩)
      else
        (⟨(leapstep P dtime pos vel).1, dtime * (n : ℝ)⟩ ::
            (orbitLoop P dtime detol Einit (leapstep P dtime pos vel).1
              (leapstep P dtime pos vel).2 (n + 1) rem).1,
          (orbitLoop P dtime detol Einit (leapstep P dtime pos vel).1
              (leapstep P dtime pos vel).2 (n + 1) rem).2) := rfl

/-- When every step in the window passes the energy check, the loop started
after s completed steps appends one sample per step and reports nothing. -/
theorem orbitLoop_no_violation (P : Params) (dtime detol : ℝ) (pos vel : Vec3) :
    ∀ (rem s : ℕ),
      (∀ i, s + 1 ≤ i → i ≤ s + rem → ¬ violates P dtime detol pos vel i) →
      orbitLoop P dtime detol (energy P pos vel)
          (stateAt P dtime pos vel s).1 (stateAt P dtime pos vel s).2 (s + 1) rem
        = ((List.range' (s + 1) rem).map (sampleAt P dtime pos vel), none) := by
  intro rem
  induction rem with
  | zero =>
    intro s _
    simp [orbitLoop_zero]
  | succ r ih =>
    intro s h
    have h2 : ∀ i, (s + 1) + 1 ≤ i → i ≤ (s + 1) + r → ¬ violates P dtime detol pos vel i :=
      fun i hi1 hi2 => h i (by omega) (by omega)
    have hnv : ¬ (|energy P pos vel -
          energy P (stateAt P dtime pos vel (s + 1)).1 (stateAt P dtime pos vel (s + 1)).2|
        > detol) := h (s + 1) le_rfl (by omega)
    rw [orbitLoop_succ, ← stateAt_succ, if_neg hnv, ih (s + 1) h2, List.range'_succ]
    simp [sampleAt]

/-- When the first k steps of the window pass the energy check and step
k+1 fails it, the loop started after s completed steps appends exactly the
k accepted samples and returns the violation report of step s+k+1. -/
theorem orbitLoop_violation (P : Params) (dtime detol : ℝ) (pos vel : Vec3) :
    ∀ (k rem s : ℕ), k + 1 ≤ rem →
      (∀ i, s + 1 ≤ i → i ≤ s + k → ¬ violates P dtime detol pos vel i) →
      violates P dtime detol pos vel (s + k + 1) →
      orbitLoop P dtime detol (energy P pos vel)
          (stateAt P dtime pos vel s).1 (stateAt P dtime pos vel s).2 (s + 1) rem
        = ((List.range' (s + 1) k).map (sampleAt P dtime pos vel),
           some ⟨energy P pos vel, dtime * ((s + k + 1 : ℕ) : ℝ),
                 energy P (stateAt P dtime pos vel (s + k + 1)).1
                   (stateAt P dtime pos vel (s + k + 1)).2,
                 energy P pos vel -
                   energy P (stateAt P dtime pos vel (s + k + 1)).1
                     (stateAt P dtime pos vel (s + k + 1)).2⟩) := by
  intro k
  induction k with
  | zero =>
    intro rem s hrem hprev hv
    obtain ⟨r, rfl⟩ : ∃ r, rem = r + 1 := ⟨rem - 1, by omega⟩
    have he : s + 0 + 1 = s + 1 := by omega
    rw [he] at hv
    have hv1 : |energy P pos vel -
          energy P (stateAt P dtime pos vel (s + 1)).1 (stateAt P dtime pos vel (s + 1)).2|
        > detol := hv
    rw [orbitLoop_succ, ← stateAt_succ, if_pos hv1, he]
    simp
  | succ k ih =>
    intro rem s hrem hprev hv
    obtain ⟨r, rfl⟩ : ∃ r, rem = r + 1 := ⟨rem - 1, by omega⟩
    have hnv : ¬ (|energy P pos vel -
          energy P (stateAt P dtime pos vel (s + 1)).1 (stateAt P dtime pos vel (s + 1)).2|
        > detol) := hprev (s + 1) le_rfl (by omega)
    have hprev2 : ∀ i, (s + 1) + 1 ≤ i → i ≤ (s + 1) + k →
        ¬ violates P dtime detol pos vel i :=
      fun i hi1 hi2 => hprev i (by omega) (by omega)
    have he : (s + 1) + k + 1 = s + (k + 1) + 1 := by omega
    have hv2 : violates P dtime detol pos vel ((s + 1) + k + 1) := by
      rw [he]; exact hv
    have hrem2 : k + 1 ≤ r := by omega
    rw [orbitLoop_succ, ← stateAt_succ, if_neg hnv, ih r (s + 1) hrem2 hprev2 hv2, he,
      List.range'_succ]
    simp [sampleAt]

/-- A run in which every step passes the energy check records the initial
sample plus one sample per step and produces no violation report. -/
theorem runOrbit_complete (P : Params) (dtime detol : ℝ) (pos vel : Vec3) (nstep : ℕ)
    (h : ∀ i, 1 ≤ i → i ≤ nstep → ¬ violates P dtime detol pos vel i) :
    runOrbit P dtime detol pos vel nstep
      = (Sample.mk pos 0 :: (List.range' 1 nstep).map (sampleAt P dtime pos vel), none) := by
  have key2 : orbitLoop P dtime detol (energy P pos vel) pos vel 1 nstep
      = ((List.range' 1 nstep).map (sampleAt P dtime pos vel), none) := by
    have key := orbitLoop_no_violation P dtime detol pos vel nstep 0
      (fun i hi1 hi2 => h i (by omega) (by omega))
    simpa [stateAt_zero] using key
  simp only [runOrbit]
  rw [key2]

/-- A run whose first k steps pass the energy check and whose step k+1
fails it records the initial sample plus the k accepted samples, and
produces the violation report of step k+1. -/
theorem runOrbit_abort (P : Params) (dtime detol : ℝ) (pos vel : Vec3) (nstep k : ℕ)
    (hk : k + 1 ≤ nstep)
    (hprev : ∀ i, 1 ≤ i → i ≤ k → ¬ violates P dtime detol pos vel i)
    (hv : violates P dtime detol pos vel (k + 1)) :
    runOrbit P dtime detol pos vel nstep
      = (Sample.mk pos 0 :: (List.range' 1 k).map (sampleAt P dtime pos vel),
         some ⟨energy P pos vel, dtime * ((k + 1 : ℕ) : ℝ),
               energy P (stateAt P dtime pos vel (k + 1)).1 (stateAt P dtime pos vel (k + 1)).2,
               energy P pos vel -
                 energy P (stateAt P dtime pos vel (k + 1)).1
                   (stateAt P dtime pos vel (k + 1)).2⟩) := by
  have he : 0 + k + 1 = k + 1 := by omega
  have hv0 : violates P dtime detol pos vel (0 + k + 1) := by rw [he]; exact hv
  have key := orbitLoop_violation P dtime detol pos vel k nstep 0 (by omega)
    (fun i hi1 hi2 => hprev i (by omega) (by omega)) hv0
  rw [he] at key
  have key2 : orbitLoop P dtime detol (energy P pos vel) pos vel 1 nstep
      = ((List.range' 1 k).map (sampleAt P dtime pos vel),
         some ⟨energy P pos vel, dtime * ((k + 1 : ℕ) : ℝ),
               energy P (stateAt P dtime pos vel (k + 1)).1 (stateAt P dtime pos vel (k + 1)).2,
               energy P pos vel -
                 energy P (stateAt P dtime pos vel (k + 1)).1
                   (stateAt P dtime pos vel (k + 1)).2⟩) := by
    simpa [stateAt_zero] using key
  simp only [runOrbit]
  rw [key2]

/-- Every run is of one of the two shapes: either it completes all nstep
steps, or it stops after some number K < nstep of accepted steps with step
K+1 failing the energy check; either way the trajectory consists of the
initial sample followed by the accepted samples in step order. -/
theorem runOrbit_cases (P : Params) (dtime detol : ℝ) (pos vel : Vec3) (nstep : ℕ) :
    ∃ K, K ≤ nstep ∧ (∀ i, 1 ≤ i → i ≤ K → ¬ violates P dtime detol pos vel i) ∧
      (K = nstep ∨ (K + 1 ≤ nstep ∧ violates P dtime detol pos vel (K + 1))) ∧
      (runOrbit P dtime detol pos vel nstep).1
        = Sample.mk pos 0 :: (List.range' 1 K).map (sampleAt P dtime pos vel) := by
  classical
  by_cases hall : ∀ i, 1 ≤ i → i ≤ nstep → ¬ violates P dtime detol pos vel i
  · refine ⟨nstep, le_rfl, hall, Or.inl rfl, ?_⟩
    rw [runOrbit_complete P dtime detol pos vel nstep hall]
  · push_neg at hall
    obtain ⟨i0, hi1, hi2, hvi⟩ := hall
    have hex : ∃ m, 1 ≤ m ∧ m ≤ nstep ∧ violates P dtime detol pos vel m :=
      ⟨i0, hi1, hi2, hvi⟩
    obtain ⟨hm1, hm2, hmv⟩ := Nat.find_spec hex
    have hprev : ∀ i, 1 ≤ i → i ≤ Nat.find hex - 1 → ¬ violates P dtime detol pos vel i :=
      fun i hi1' hi2' hviol => Nat.find_min hex (by omega) ⟨hi1', by omega, hviol⟩
    have he : Nat.find hex - 1 + 1 = Nat.find hex := by omega
    have hv2 : violates P dtime detol pos vel (Nat.find hex - 1 + 1) := by rw [he]; exact hmv
    refine ⟨Nat.find hex - 1, by omega, hprev, Or.inr ⟨by omega, hv2⟩, ?_⟩
    rw [runOrbit_abort P dtime detol pos vel nstep (Nat.find hex - 1) (by omega) hprev hv2]

/-- C9: the leapfrog step is exactly time-reversible in real arithmetic:
stepping once from (pos, vel), then stepping once more from the new
position with the negated new velocity, returns the original position. -/
theorem leapstep_reversible (P : Params) (dtime : ℝ) (pos vel : Vec3) :
    (leapstep P dtime (leapstep P dtime pos vel).1 (vneg (leapstep P dtime pos vel).2)).1
      = pos := by
  simp only [leapstep, vadd, smul, vneg]
  ext <;> ring

/-- With a zero time increment a leapfrog step leaves the state unchanged;
used to evaluate the loop at concrete inputs. -/
theorem leapstep_zero_dtime (P : Params) (pos vel : Vec3) :
    leapstep P 0 pos vel = (pos, vel) := by
  have h1 : (leapstep P 0 pos vel).1 = pos := by
    apply Vec3.ext <;> simp [leapstep, vadd, smul]
  have h2 : (leapstep P 0 pos vel).2 = vel := by
    apply Vec3.ext <;> simp [leapstep, vadd, smul]
  exact Prod.ext h1 h2

/-- With a zero time increment the state after one step is the initial
state. -/
theorem stateAt_one_zero_dtime (P : Params) (pos vel : Vec3) :
    stateAt P 0 pos vel 1 = (pos, vel) := by
  show stateAt P 0 pos vel (0 + 1) = (pos, vel)
  rw [stateAt_succ, stateAt_zero]
  exact leapstep_zero_dtime P pos vel

/-- C5: the trajectory length is 1 plus the number of accepted steps: a
run in which every step passes the energy check records nstep + 1 samples,
and a run whose steps 1..k pass the check while step k+1 fails it records
k + 1 samples. -/
theorem trajectory_length_invariant (P : Params) (dtime detol : ℝ) (pos vel : Vec3)
    (nstep : ℕ) (hn : 0 < nstep) :
    ((∀ i, 1 ≤ i → i ≤ nstep → ¬ violates P dtime detol pos vel i) →
        (runOrbit P dtime detol pos vel nstep).1.length = nstep + 1) ∧
    (∀ k, k + 1 ≤ nstep →
        (∀ i, 1 ≤ i → i ≤ k → ¬ violates P dtime detol pos vel i) →
        violates P dtime detol pos vel (k + 1) →
        (runOrbit P dtime detol pos vel nstep).1.length = k + 1) := by
  constructor
  · intro h
    rw [runOrbit_complete P dtime detol pos vel nstep h]
    simp
  · intro k hk hprev hv
    rw [runOrbit_abort P dtime detol pos vel nstep k hk hprev hv]
    simp

/-- Witness for C5: a one-step run with zero time increment conserves the
energy exactly, so every step is accepted and the trajectory holds 1 + 1
samples. -/
theorem trajectory_length_invariant_witness :
    (runOrbit ⟨1, 1, 1⟩ 0 1 ⟨1, 0, 0⟩ ⟨0, 0, 0⟩ 1).1.length = 1 + 1 :=
  (trajectory_length_invariant ⟨1, 1, 1⟩ 0 1 ⟨1, 0, 0⟩ ⟨0, 0, 0⟩ 1 (by norm_num)).1
    (by
      intro i hi1 hi2
      have hi : i = 1 := by omega
      subst hi
      intro hviol
      have hlt : (1 : ℝ) < |energy ⟨1, 1, 1⟩ ⟨1, 0, 0⟩ ⟨0, 0, 0⟩ -
          energy ⟨1, 1, 1⟩ (stateAt ⟨1, 1, 1⟩ 0 ⟨1, 0, 0⟩ ⟨0, 0, 0⟩ 1).1
            (stateAt ⟨1, 1, 1⟩ 0 ⟨1, 0, 0⟩ ⟨0, 0, 0⟩ 1).2| := hviol
      rw [stateAt_one_zero_dtime] at hlt
      norm_num at hlt)

/-- C4: per-step behaviour of the energy guard, at the first step n whose
outcome is not yet forced by earlier steps: when step n fails the check
the driver stops with the trajectory holding only the initial sample and
the samples of steps 1..n-1, appends nothing for step n, and reports the
initial energy, the time n*dtime, the current energy and the deviation;
when step n passes the check the trajectory continues through sample n,
whose time tag is n*dtime. -/
theorem energy_guard_step (P : Params) (dtime detol : ℝ) (pos vel : Vec3) (nstep n : ℕ)
    (h1 : 1 ≤ n) (h2 : n ≤ nstep)
    (hprev : ∀ i, 1 ≤ i → i < n → ¬ violates P dtime detol pos vel i) :
    (violates P dtime detol pos vel n →
        (runOrbit P dtime detol pos vel nstep).1
            = Sample.mk pos 0 :: (List.range' 1 (n - 1)).map (sampleAt P dtime pos vel) ∧
          (runOrbit P dtime detol pos vel nstep).2
            = some ⟨energy P pos vel, dtime * (n : ℝ),
                energy P (stateAt P dtime pos vel n).1 (stateAt P dtime pos vel n).2,
                energy P pos vel -
                  energy P (stateAt P dtime pos vel n).1 (stateAt P dtime pos vel n).2⟩) ∧
    (¬ violates P dtime detol pos vel n →
        (runOrbit P dtime detol pos vel nstep).1.take (n + 1)
          = Sample.mk pos 0 :: (List.range' 1 n).map (sampleAt P dtime pos vel)) := by
  constructor
  · intro hv
    obtain ⟨m, rfl⟩ : ∃ m, n = m + 1 := ⟨n - 1, by omega⟩
    have hprev2 : ∀ i, 1 ≤ i → i ≤ m → ¬ violates P dtime detol pos vel i :=
      fun i hi1 hi2 => hprev i hi1 (by omega)
    rw [runOrbit_abort P dtime detol pos vel nstep m h2 hprev2 hv]
    exact ⟨rfl, rfl⟩
  · intro hnv
    obtain ⟨K, hK, hKacc, hKcases, htraj⟩ := runOrbit_cases P dtime detol pos vel nstep
    have hnK : n ≤ K := by
      rcases hKcases with hKn | ⟨hKlt, hKviol⟩
      · omega
      · by_contra hlt
        push_neg at hlt
        rcases Nat.lt_or_ge (K + 1) n with hc | hc
        · exact hprev (K + 1) (by omega) hc hKviol
        · have he : K + 1 = n := by omega
          rw [he] at hKviol
          exact hnv hKviol
    rw [htraj, List.take_succ_cons]
    have hsplit : List.range' 1 n ++ List.range' (1 + n) (K - n) = List.range' 1 K := by
      rw [List.range'_append_1]
      congr 1
      omega
    rw [← hsplit, List.map_append]
    have hlen : ((List.range' 1 n).map (sampleAt P dtime pos vel)).length = n := by simp
    rw [List.take_left' hlen]

/-- Witness for C4: with a negative tolerance every deviation, including a
zero one, is a violation, so a zero-increment run aborts at step 1 with
just the initial sample recorded and the report of step 1 returned. -/
theorem energy_guard_step_witness :
    (runOrbit ⟨1, 1, 1⟩ 0 (-1) ⟨1, 0, 0⟩ ⟨0, 0, 0⟩ 1).1
        = Sample.mk ⟨1, 0, 0⟩ 0 ::
            (List.range' 1 (1 - 1)).map (sampleAt ⟨1, 1, 1⟩ 0 ⟨1, 0, 0⟩ ⟨0, 0, 0⟩) ∧
      (runOrbit ⟨1, 1, 1⟩ 0 (-1) ⟨1, 0, 0⟩ ⟨0, 0, 0⟩ 1).2
        = some ⟨energy ⟨1, 1, 1⟩ ⟨1, 0, 0⟩ ⟨0, 0, 0⟩, 0 * ((1 : ℕ) : ℝ),
            energy ⟨1, 1, 1⟩ (stateAt ⟨1, 1, 1⟩ 0 ⟨1, 0, 0⟩ ⟨0, 0, 0⟩ 1).1
              (stateAt ⟨1, 1, 1⟩ 0 ⟨1, 0, 0⟩ ⟨0, 0, 0⟩ 1).2,
            energy ⟨1, 1, 1⟩ ⟨1, 0, 0⟩ ⟨0, 0, 0⟩ -
              energy ⟨1, 1, 1⟩ (stateAt ⟨1, 1, 1⟩ 0 ⟨1, 0, 0⟩ ⟨0, 0, 0⟩ 1).1
                (stateAt ⟨1, 1, 1⟩ 0 ⟨1, 0, 0⟩ ⟨0, 0, 0⟩ 1).2⟩ := by
  have hv : violates ⟨1, 1, 1⟩ 0 (-1) ⟨1, 0, 0⟩ ⟨0, 0, 0⟩ 1 := by
    show (-1 : ℝ) < |energy ⟨1, 1, 1⟩ ⟨1, 0, 0⟩ ⟨0, 0, 0⟩ -
        energy ⟨1, 1, 1⟩ (stateAt ⟨1, 1, 1⟩ 0 ⟨1, 0, 0⟩ ⟨0, 0, 0⟩ 1).1
          (stateAt ⟨1, 1, 1⟩ 0 ⟨1, 0, 0⟩ ⟨0, 0, 0⟩ 1).2|
    rw [stateAt_one_zero_dtime]
    norm_num
  exact (energy_guard_step ⟨1, 1, 1⟩ 0 (-1) ⟨1, 0, 0⟩ ⟨0, 0, 0⟩ 1 1 le_rfl le_rfl
    (fun i hi1 hi2 => absurd hi2 (by omega))).1 hv

/-- C6 counterexample: recorded samples do not carry the velocity. Two
runs whose initial phase states differ, in the velocity only, record
identical first samples, so the first sample cannot equal the initial
phase state as a whole. -/
theorem first_sample_ignores_velocity :
    (runOrbit ⟨0.2, 0.9, 0.8⟩ 0.01 0.001 ⟨1, 0, 0⟩ ⟨0, 0.4, 0⟩ 0).1.head?
        = (runOrbit ⟨0.2, 0.9, 0.8⟩ 0.01 0.001 ⟨1, 0, 0⟩ ⟨0, 0.5, 0⟩ 0).1.head?
      ∧ Vec3.mk 0 0.4 0 ≠ Vec3.mk 0 0.5 0 := by
  constructor
  · rfl
  · intro h
    have hy := congrArg Vec3.y h
    norm_num at hy

/-- C6 amended: every recorded trajectory sample is a position tagged with
its simulation time — the sample of step i holds the position after i
steps and the time i*dtime — and the first sample has time 0 and the
initial position. The velocity is not recorded. -/
theorem samples_are_position_and_time (P : Params) (dtime detol : ℝ) (pos vel : Vec3)
    (nstep : ℕ) :
    (runOrbit P dtime detol pos vel nstep).1.head? = some ⟨pos, 0⟩ ∧
    ∀ s ∈ (runOrbit P dtime detol pos vel nstep).1,
      ∃ i ≤ nstep, s = sampleAt P dtime pos vel i := by
  obtain ⟨K, hK, -, -, htraj⟩ := runOrbit_cases P dtime detol pos vel nstep
  refine ⟨by rw [htraj]; rfl, ?_⟩
  intro s hs
  rw [htraj] at hs
  rcases List.mem_cons.1 hs with h0 | hmem
  · exact ⟨0, Nat.zero_le _, by rw [h0, sampleAt_zero]⟩
  · obtain ⟨i, hi, rfl⟩ := List.mem_map.1 hmem
    have hrange := List.mem_range'_1.1 hi
    exact ⟨i, by omega, rfl⟩

/-- Witness for C6 amended, on a zero-step run: the single recorded sample
is the initial position at time 0, and it is the sample of step 0. -/
theorem samples_are_position_and_time_witness :
    (runOrbit ⟨0.2, 0.9, 0.8⟩ 0.01 0.001 ⟨1, 0, 0⟩ ⟨0, 0.4, 0⟩ 0).1.head?
        = some ⟨⟨1, 0, 0⟩, 0⟩ ∧
      ∃ i ≤ 0, Sample.mk ⟨1, 0, 0⟩ 0
          = sampleAt ⟨0.2, 0.9, 0.8⟩ 0.01 ⟨1, 0, 0⟩ ⟨0, 0.4, 0⟩ i :=
  ⟨(samples_are_position_and_time ⟨0.2, 0.9, 0.8⟩ 0.01 0.001 ⟨1, 0, 0⟩ ⟨0, 0.4, 0⟩ 0).1,
   (samples_are_position_and_time ⟨0.2, 0.9, 0.8⟩ 0.01 0.001 ⟨1, 0, 0⟩ ⟨0, 0.4, 0⟩ 0).2
     (Sample.mk ⟨1, 0, 0⟩ 0) (by simp [runOrbit, orbitLoop_zero])⟩

/-- C7: evaluation at the failing input. A command line setting the
core-radius flag to 0.5 hands the constructor the keyword entry under the
destination name R, but the constructor pops the key Rc, which is absent,
so the run keeps the default core radius 0.2 and the requested 0.5 is
silently ignored. -/
theorem cli_core_radius_ignored :
    initRc [(cliCoreRadiusKey, 0.5)] = 0.2 ∧
    cliCoreRadiusKey ≠ "Rc" ∧ (0.2 : ℝ) ≠ 0.5 := by
  refine ⟨rfl, by decide, by norm_num⟩

/-- C8: evaluation at the failing input, the plane argument XY. The plot
method issues three plt.plot calls — the YZ and XZ projections are drawn
in addition to the selected XY one, because the dict literal evaluates
every one of its values — while the axis labels do follow the selected
plane. -/
theorem plot_draws_all_three_projections :
    plotCalls ("XY") = [⟨Axis.X, Axis.Y⟩, ⟨Axis.Y, Axis.Z⟩, ⟨Axis.X, Axis.Z⟩] ∧
    DrawCall.mk Axis.Y Axis.Z ∈ plotCalls ("XY") ∧
    DrawCall.mk Axis.X Axis.Z ∈ plotCalls ("XY") ∧
    (plotCalls ("XY")).length = 3 ∧
    plotAxisLabels ("XY") = some ('X', 'Y') := by
  refine ⟨rfl, by decide, by decide, rfl, rfl⟩

end RunOrbit
